import Mathlib

/-!
Verification of the live-log reconciliation layer of `src/main.js`.

The embedding models JavaScript dynamic values as `JsVal` (JS numbers as
rationals; the model omits NaN, which plays no role in the claims), the
accepted log entries as `LogEntry`, and translates the functions `addLog`,
`logsEqual`, `normalizeEntries` and `fetchLogs` directly from the source.
Rendering (`renderLogs`) only touches the DOM, so each model function
additionally reports how many times it invoked a render.
-/

namespace PingTool

/-- A JavaScript value, restricted to the shapes the reconciler inspects.
Objects are modelled by the only two properties the code ever reads,
`seq` and `line`; reading either property of a non-object yields
`undefined` in the model, as property access on primitives does for
absent properties in JS. JS numbers are modelled as rationals. -/
inductive JsVal where
  | null
  | undefined
  | bool (b : Bool)
  | num (q : ℚ)
  | str (s : String)
  | arr (xs : List JsVal)
  | obj (seqField lineField : JsVal)

/-- JS truthiness for `JsVal`. -/
def JsVal.truthy : JsVal → Bool
  | .null => false
  | .undefined => false
  | .bool b => b
  | .num q => q != 0
  | .str s => s != ""
  | .arr _ => true
  | .obj _ _ => true

/-- `Array.isArray`. -/
def JsVal.isArray : JsVal → Bool
  | .arr _ => true
  | _ => false

/-- `.length` of an array value (0 for non-arrays; the code only reads it
after an `Array.isArray` check). -/
def JsVal.arrayLength : JsVal → Nat
  | .arr xs => xs.length
  | _ => 0

/-- Property read `v.seq`. -/
def JsVal.getSeq : JsVal → JsVal
  | .obj s _ => s
  | _ => .undefined

/-- Property read `v.line`. -/
def JsVal.getLine : JsVal → JsVal
  | .obj _ l => l
  | _ => .undefined

/-- An accepted log entry: `{ seq, line }` with a numeric `seq` and a
string `line` (the shapes enforced by the source's validation). -/
@[ext]
structure LogEntry where
  seq : ℚ
  line : String
deriving DecidableEq, Repr

/-- `const maxLogs = 100` from the source. -/
def maxLogs : Nat := 100

/-- The shape check shared by `addLog` and `normalizeEntries`:
`item && typeof item.seq === "number" && typeof item.line === "string"`.
Returns the extracted entry when the check passes. -/
def entryOfVal : JsVal → Option LogEntry
  | .obj (.num q) (.str s) => some { seq := q, line := s }
  | _ => none

/-- `logs.length > 0 && logs[logs.length - 1].seq >= entry.seq`:
the rejection test of `addLog` for duplicate / out-of-order entries. -/
def rejectsEntry (logs : List LogEntry) (e : LogEntry) : Bool :=
  match logs.getLast? with
  | some last => e.seq ≤ last.seq
  | none => false

/-- `addLog(entry)` from the source (lines 93-105). Returns the new buffer
and whether `renderLogs` was invoked. -/
def addLog (logs : List LogEntry) (v : JsVal) : List LogEntry × Bool :=
  match entryOfVal v with
  | none => (logs, false)
  | some e =>
    if rejectsEntry logs e then (logs, false)
    else
      let pushed := logs ++ [e]
      (if maxLogs < pushed.length then pushed.tail else pushed, true)

/-- `logsEqual(next)` from the source (lines 107-117): pairwise equality
of `seq` and `line`, plus equal length. -/
def logsEqual : List LogEntry → List LogEntry → Bool
  | [], [] => true
  | a :: as, b :: bs => a.seq == b.seq && a.line == b.line && logsEqual as bs
  | _, _ => false

/-- `normalizeEntries(raw)` from the source (lines 119-131): non-arrays
become `[]`; array elements failing the shape check are dropped. -/
def normalizeEntries (raw : JsVal) : List LogEntry :=
  match raw with
  | .arr xs => xs.filterMap entryOfVal
  | _ => []

/-- `fetchLogs` from the source (lines 133-157), parametrised by the
settled result of `invoke("get_recent_logs")`: `.error` models a rejected
promise (swallowed by the `catch`). Returns the new buffer and the number
of renders performed. -/
def fetchLogs (logs : List LogEntry) (resp : Except Unit JsVal) :
    List LogEntry × Nat :=
  match resp with
  | .error _ => (logs, 0)
  | .ok raw =>
    let entries := normalizeEntries raw
    if entries.length = 0 ∧ raw.truthy = true ∧ raw.isArray = true ∧
        0 < raw.arrayLength then
      (logs, 0)
    else if entries.length = 0 ∧ logs.length = 0 then
      (logs, 1)
    else
      let sliced := entries.take maxLogs
      if logsEqual logs sliced then (logs, 0)
      else (sliced, 1)

/-- The `"ping-log"` event listener (lines 492-505): a falsy payload is
ignored; otherwise `{ seq, line }` is destructured from the payload and
handed to `addLog`. -/
def pingLogListener (logs : List LogEntry) (payload : JsVal) :
    List LogEntry × Bool :=
  if payload.truthy then addLog logs (.obj payload.getSeq payload.getLine)
  else (logs, false)

/-- One reconciliation action: a push delivery or a settled poll. -/
inductive Act where
  | push (v : JsVal)
  | poll (r : Except Unit JsVal)

/-- Effect of one action on the buffer. -/
def stepLogs (logs : List LogEntry) : Act → List LogEntry
  | .push v => (addLog logs v).1
  | .poll r => (fetchLogs logs r).1

/-- The buffer reached from empty (the state after a reset) by a sequence
of push deliveries and poll completions. -/
def runActs (acts : List Act) : List LogEntry :=
  acts.foldl stepLogs []

/-- The buffer invariant: entries strictly increasing in `seq`
(no duplicates, no inversions). -/
def seqSorted (l : List LogEntry) : Prop :=
  l.Pairwise (fun a b => a.seq < b.seq)

instance : DecidablePred seqSorted := by
  intro l
  unfold seqSorted
  exact List.instDecidablePairwise l

/-! ### Helper lemmas -/

theorem logsEqual_iff_eq (l m : List LogEntry) : logsEqual l m = true ↔ l = m := by
  induction l generalizing m with
  | nil => cases m <;> simp [logsEqual]
  | cons a as ih =>
    cases m with
    | nil => simp [logsEqual]
    | cons b bs =>
      simp only [logsEqual, Bool.and_eq_true, beq_iff_eq, ih, List.cons.injEq]
      constructor
      · rintro ⟨⟨h1, h2⟩, h3⟩
        exact ⟨LogEntry.ext h1 h2, h3⟩
      · rintro ⟨rfl, rfl⟩
        exact ⟨⟨rfl, rfl⟩, rfl⟩

theorem logsEqual_self (l : List LogEntry) : logsEqual l l = true :=
  (logsEqual_iff_eq l l).mpr rfl

theorem seqSorted_take {l : List LogEntry} (h : seqSorted l) (n : Nat) :
    seqSorted (l.take n) :=
  h.sublist (List.take_sublist n l)

theorem seqSorted_nil : seqSorted [] := List.Pairwise.nil

theorem le_getLast_of_seqSorted :
    ∀ {l : List LogEntry} {z a : LogEntry}, seqSorted l →
      l.getLast? = some z → a ∈ l → a.seq ≤ z.seq := by
  intro l
  induction l with
  | nil => intro z a _ hz; simp at hz
  | cons x xs ih =>
    intro z a hs hz ha
    cases xs with
    | nil =>
      simp [List.getLast?] at hz
      subst hz
      simp at ha
      subst ha
      exact le_refl _
    | cons y ys =>
      rw [List.getLast?_cons_cons] at hz
      rcases List.mem_cons.mp ha with rfl | ha'
      · have hxy : a.seq < y.seq :=
          (List.pairwise_cons.mp hs).1 y (List.mem_cons_self y ys)
        have hyz : y.seq ≤ z.seq :=
          ih hs.of_cons hz (List.mem_cons_self y ys)
        exact le_of_lt (lt_of_lt_of_le hxy hyz)
      · exact ih hs.of_cons hz ha'

theorem lt_of_rejectsEntry_false {l : List LogEntry} {e : LogEntry}
    (hs : seqSorted l) (h : rejectsEntry l e = false) :
    ∀ a ∈ l, a.seq < e.seq := by
  intro a ha
  unfold rejectsEntry at h
  cases hl : l.getLast? with
  | none =>
    rw [List.getLast?_eq_none_iff] at hl
    subst hl
    simp at ha
  | some last =>
    rw [hl] at h
    have hlast : last.seq < e.seq := by
      by_contra hc
      push_neg at hc
      simp [hc] at h
    exact lt_of_le_of_lt (le_getLast_of_seqSorted hs hl ha) hlast

theorem addLog_sorted {l : List LogEntry} (v : JsVal) (hs : seqSorted l) :
    seqSorted (addLog l v).1 := by
  unfold addLog
  cases entryOfVal v with
  | none => exact hs
  | some e =>
    simp only
    cases hr : rejectsEntry l e with
    | true => exact hs
    | false =>
      simp only [Bool.false_eq_true, if_false]
      have happ : seqSorted (l ++ [e]) := by
        refine List.pairwise_append.mpr ⟨hs, List.pairwise_singleton _ e, ?_⟩
        intro a ha b hb
        rw [List.mem_singleton] at hb
        subst hb
        exact lt_of_rejectsEntry_false hs hr a ha
      rcases Nat.lt_or_ge maxLogs (l ++ [e]).length with hlen | hlen
      · rw [if_pos hlen]
        exact happ.sublist (List.tail_sublist (l ++ [e]))
      · rw [if_neg (Nat.not_lt.mpr hlen)]
        exact happ

theorem addLog_length {l : List LogEntry} (v : JsVal) (h : l.length ≤ maxLogs) :
    (addLog l v).1.length ≤ maxLogs := by
  unfold addLog
  cases entryOfVal v with
  | none => exact h
  | some e =>
    simp only
    cases hr : rejectsEntry l e with
    | true => exact h
    | false =>
      simp only [Bool.false_eq_true, if_false]
      have hlapp : (l ++ [e]).length = l.length + 1 := by simp
      rcases Nat.lt_or_ge maxLogs (l ++ [e]).length with hlen | hlen
      · rw [if_pos hlen, List.length_tail]
        omega
      · rw [if_neg (Nat.not_lt.mpr hlen)]
        omega

/-- The sanitized window carried by a settled poll result. -/
def respWindow : Except Unit JsVal → List LogEntry
  | .error _ => []
  | .ok raw => normalizeEntries raw

theorem fetchLogs_sorted {l : List LogEntry} (r : Except Unit JsVal)
    (hs : seqSorted l) (hw : seqSorted (respWindow r)) :
    seqSorted (fetchLogs l r).1 := by
  cases r with
  | error e => exact hs
  | ok raw =>
    simp only [fetchLogs]
    split_ifs with h1 h2 h3
    · exact hs
    · exact hs
    · exact hs
    · exact seqSorted_take hw maxLogs

theorem fetchLogs_length {l : List LogEntry} (r : Except Unit JsVal)
    (h : l.length ≤ maxLogs) : (fetchLogs l r).1.length ≤ maxLogs := by
  cases r with
  | error e => exact h
  | ok raw =>
    simp only [fetchLogs]
    split_ifs with h1 h2 h3
    · exact h
    · exact h
    · exact h
    · simp only [List.length_take]
      exact le_trans (Nat.min_le_left _ _) (le_refl _)

/-! ### Lifecycle model

`startPing` / `stopPing` (lines 377-416) mutate module-level state:
the buffer, the `running` flag, `autoScroll`, the inline error text,
the displayed log path and the poll timer. Timers are modelled as a list
of `(id, period)` pairs of currently active intervals; `setInterval`
hands out the next fresh id and `clearInterval id` removes that id. -/

/-- JS `String.prototype.trim`: strip leading and trailing whitespace.
(Lean's built-in `String.trim` is not kernel-reducible, so the same
operation is written over the character list.) -/
def jsTrim (s : String) : String :=
  String.mk ((s.toList.dropWhile Char.isWhitespace).reverse.dropWhile
    Char.isWhitespace).reverse

structure AppState where
  logs : List LogEntry
  running : Bool
  autoScroll : Bool
  errorText : String
  logPathText : String
  pollTimer : Option Nat
  timers : List (Nat × Nat)
  nextTimerId : Nat
  renders : Nat
deriving DecidableEq, Repr

/-- The validation message `setError` shows for an empty address. -/
def emptyAddressMsg : String := "请输入目标地址。"

/-- The fixed poll period passed to `setInterval` (line 397). -/
def pollPeriodMs : Nat := 1000

/-- `startPing` (lines 377-401). `backend` is the settled result of
`invoke("start_ping")`; `pollResp` that of the immediate
`invoke("get_recent_logs")` performed by the awaited `fetchLogs()`
(whose own rejection is swallowed inside `fetchLogs`). On a rejected
start call the `catch` runs with nothing of the `try` body executed. -/
def startPing (s : AppState) (address : String)
    (backend : Except String String) (pollResp : Except Unit JsVal) :
    AppState :=
  if jsTrim address = "" then { s with errorText := emptyAddressMsg }
  else
    let s1 := { s with errorText := "" }
    match backend with
    | .error err => { s1 with errorText := err }
    | .ok baseDir =>
      let s2 := { s1 with logPathText := baseDir, logs := [],
                          renders := s1.renders + 1, autoScroll := true,
                          running := true }
      let polled := fetchLogs s2.logs pollResp
      let s3 := { s2 with logs := polled.1, renders := s2.renders + polled.2 }
      let s4 :=
        match s3.pollTimer with
        | some t => { s3 with timers := s3.timers.filter (fun p => p.1 ≠ t) }
        | none => s3
      { s4 with pollTimer := some s4.nextTimerId,
                timers := (s4.nextTimerId, pollPeriodMs) :: s4.timers,
                nextTimerId := s4.nextTimerId + 1 }

/-- `stopPing` (lines 403-416). `backend` is the settled result of
`invoke("stop_ping")`. -/
def stopPing (s : AppState) (backend : Except String Unit) : AppState :=
  let s1 := { s with errorText := "" }
  match backend with
  | .error err => { s1 with errorText := err }
  | .ok _ =>
    let s2 := { s1 with running := false }
    match s2.pollTimer with
    | some t => { s2 with pollTimer := none,
                          timers := s2.timers.filter (fun p => p.1 ≠ t) }
    | none => s2

/-! ### Poll-request pipelining model

Line 397 arms `setInterval(fetchLogs, 1000)`. `setInterval` fires its
callback every period while the interval is armed, regardless of the
state of any previous invocation; each firing of the async `fetchLogs`
issues one `invoke("get_recent_logs")` that stays in flight until its
promise settles. The event loop therefore admits a tick while an earlier
poll is still unsettled (the suspended `fetchLogs` task does not block
the timer callback). `PollStep` is that transition system: `tick` is
enabled whenever the timer is armed, `settle` whenever a poll is in
flight. -/

structure PollLoop where
  armed : Bool
  inFlight : Nat
deriving DecidableEq, Repr

inductive PollStep : PollLoop → PollLoop → Prop
  | tick (s : PollLoop) (h : s.armed = true) :
      PollStep s { armed := s.armed, inFlight := s.inFlight + 1 }
  | settle (s : PollLoop) (h : 0 < s.inFlight) :
      PollStep s { armed := s.armed, inFlight := s.inFlight - 1 }

/-! ### Branch lemmas for `fetchLogs` -/

theorem mem_of_getLast?_eq {l : List LogEntry} {z : LogEntry}
    (h : l.getLast? = some z) : z ∈ l := by
  rcases List.mem_getLast?_eq_getLast (l := l) (x := z) (by simp [h])
    with ⟨hne, rfl⟩
  exact List.getLast_mem hne

theorem normalizeEntries_of_not_array {raw : JsVal}
    (h : raw.isArray = false) : normalizeEntries raw = [] := by
  cases raw <;> simp_all [JsVal.isArray, normalizeEntries]

theorem fetchLogs_ok_eq (l : List LogEntry) (raw : JsVal) :
    fetchLogs l (.ok raw) =
      if (normalizeEntries raw).length = 0 ∧ raw.truthy = true ∧
          raw.isArray = true ∧ 0 < raw.arrayLength then (l, 0)
      else if (normalizeEntries raw).length = 0 ∧ l.length = 0 then (l, 1)
      else if logsEqual l ((normalizeEntries raw).take maxLogs) then (l, 0)
      else ((normalizeEntries raw).take maxLogs, 1) := rfl

theorem fetchLogs_replace {l : List LogEntry} {raw : JsVal}
    (hne : normalizeEntries raw ≠ [])
    (hneq : logsEqual l ((normalizeEntries raw).take maxLogs) = false) :
    fetchLogs l (.ok raw) = ((normalizeEntries raw).take maxLogs, 1) := by
  have hlen : (normalizeEntries raw).length ≠ 0 := by
    simpa [List.length_eq_zero] using hne
  rw [fetchLogs_ok_eq, if_neg (fun hc => hlen hc.1),
    if_neg (fun hc => hlen hc.1), if_neg (by simp [hneq])]

theorem fetchLogs_noop {l : List LogEntry} {raw : JsVal}
    (hne : normalizeEntries raw ≠ [])
    (heq : logsEqual l ((normalizeEntries raw).take maxLogs) = true) :
    fetchLogs l (.ok raw) = (l, 0) := by
  have hlen : (normalizeEntries raw).length ≠ 0 := by
    simpa [List.length_eq_zero] using hne
  rw [fetchLogs_ok_eq, if_neg (fun hc => hlen hc.1),
    if_neg (fun hc => hlen hc.1), if_pos heq]

/-! ### Trace invariants -/

theorem foldl_stepLogs_sorted :
    ∀ (acts : List Act) (l : List LogEntry), seqSorted l →
      (∀ raw, Act.poll (Except.ok raw) ∈ acts →
        seqSorted (normalizeEntries raw)) →
      seqSorted (acts.foldl stepLogs l) := by
  intro acts
  induction acts with
  | nil => intro l hl _; exact hl
  | cons a as ih =>
    intro l hl h
    rw [List.foldl_cons]
    refine ih (stepLogs l a) ?_ (fun raw hr => h raw (List.mem_cons_of_mem a hr))
    cases a with
    | push v => exact addLog_sorted v hl
    | poll r =>
      refine fetchLogs_sorted r hl ?_
      cases r with
      | error e => exact seqSorted_nil
      | ok raw => exact h raw (List.mem_cons_self _ as)

theorem foldl_stepLogs_length :
    ∀ (acts : List Act) (l : List LogEntry), l.length ≤ maxLogs →
      (acts.foldl stepLogs l).length ≤ maxLogs := by
  intro acts
  induction acts with
  | nil => intro l hl; exact hl
  | cons a as ih =>
    intro l hl
    rw [List.foldl_cons]
    refine ih (stepLogs l a) ?_
    cases a with
    | push v => exact addLog_length v hl
    | poll r => exact fetchLogs_length r hl

/-! ### Equation lemmas for `addLog` -/

theorem addLog_invalid {l : List LogEntry} {v : JsVal}
    (hv : entryOfVal v = none) : addLog l v = (l, false) := by
  unfold addLog
  rw [hv]

theorem addLog_rejected {l : List LogEntry} {v : JsVal} {e : LogEntry}
    (hv : entryOfVal v = some e) (hr : rejectsEntry l e = true) :
    addLog l v = (l, false) := by
  unfold addLog
  rw [hv]
  simp [hr]

theorem addLog_accepted {l : List LogEntry} {v : JsVal} {e : LogEntry}
    (hv : entryOfVal v = some e) (hr : rejectsEntry l e = false) :
    addLog l v =
      (if maxLogs < (l ++ [e]).length then (l ++ [e]).tail else l ++ [e],
        true) := by
  unfold addLog
  rw [hv]
  simp [hr]

/-! ### Concrete scenarios -/

/-- 101 push deliveries with `seq = 1..101`. -/
def pushSeq101 : List Act :=
  (List.range 101).map
    (fun i => Act.push (.obj (.num ((i + 1 : ℕ) : ℚ)) (.str "x")))

/-- The entries with `seq = 2..101`. -/
def evictedWindow : List LogEntry :=
  (List.range 100).map (fun i => { seq := ((i + 2 : ℕ) : ℚ), line := "x" })

/-- A full buffer of 100 entries with `seq = 0..99`. -/
def fullBuffer100 : List LogEntry :=
  (List.range 100).map (fun i => { seq := ((i : ℕ) : ℚ), line := "y" })

theorem fullBuffer100_sorted : seqSorted fullBuffer100 := by
  unfold fullBuffer100 seqSorted
  refine (List.pairwise_lt_range 100).map _ (fun a b hab => ?_)
  show ((a : ℕ) : ℚ) < ((b : ℕ) : ℚ)
  exact_mod_cast hab

/-- C2: starting from the empty buffer (the state after a reset), any
interleaving of push deliveries and poll completions leaves the buffer
strictly increasing in `seq` — no duplicates, no inversions — provided
each delivered poll snapshot is itself an ordered window, which is the
backend contract for `get_recent_logs` (the poll source is ordered and
deduplicated upstream). Push-only traces satisfy the hypothesis
vacuously, so in particular every sequence of `addLog` calls yields a
strictly increasing buffer. -/
theorem buffer_seq_strictly_increasing (acts : List Act)
    (h : ∀ raw, Act.poll (Except.ok raw) ∈ acts →
      seqSorted (normalizeEntries raw)) :
    seqSorted (runActs acts) :=
  foldl_stepLogs_sorted acts [] List.Pairwise.nil h

theorem buffer_seq_strictly_increasing_witness :
    seqSorted (runActs [Act.push (.obj (.num 1) (.str "a")),
      Act.push (.obj (.num 2) (.str "b"))]) := by
  apply buffer_seq_strictly_increasing
  intro raw hr
  simp at hr

set_option maxRecDepth 40000 in
/-- C4: (1) every buffer reachable from empty holds at most 100 entries;
(2) when an accepted append overflows a full, ordered buffer, the entry
evicted is exactly the head, which carries the lowest `seq` of the
buffer (never a newer entry); (3) concretely, appending 101 strictly
increasing entries with `seq = 1..101` to an empty buffer leaves exactly
the entries with `seq = 2..101`. -/
theorem buffer_bounded_and_fifo :
    (∀ acts : List Act, (runActs acts).length ≤ maxLogs)
    ∧ (∀ (l : List LogEntry) (e : LogEntry), seqSorted l →
        maxLogs ≤ l.length → rejectsEntry l e = false →
        ∃ hd tl, l = hd :: tl
          ∧ (addLog l (JsVal.obj (.num e.seq) (.str e.line))).1 = tl ++ [e]
          ∧ ∀ a ∈ l, hd.seq ≤ a.seq)
    ∧ runActs pushSeq101 = evictedWindow := by
  refine ⟨?_, ?_, by decide⟩
  · intro acts
    exact foldl_stepLogs_length acts [] (by simp [maxLogs])
  · intro l e hs hlen hrej
    have hm : maxLogs = 100 := rfl
    cases l with
    | nil => simp at hlen; omega
    | cons hd tl =>
      refine ⟨hd, tl, rfl, ?_, ?_⟩
      · have hev : entryOfVal (JsVal.obj (.num e.seq) (.str e.line)) = some e :=
          rfl
        rw [addLog_accepted hev hrej]
        have hlen' : maxLogs ≤ tl.length + 1 := by simpa using hlen
        have hoverflow : maxLogs < ((hd :: tl) ++ [e]).length := by
          simp only [List.length_append, List.length_cons]
          omega
        simp only [hoverflow, if_true]
        rfl
      · intro a ha
        rcases List.mem_cons.mp ha with rfl | ha'
        · exact le_refl _
        · exact le_of_lt ((List.pairwise_cons.mp hs).1 a ha')

theorem buffer_bounded_and_fifo_witness :
    (addLog fullBuffer100 (JsVal.obj (.num 1000) (.str "z"))).1
      = fullBuffer100.tail ++ [{ seq := 1000, line := "z" }] := by
  obtain ⟨hd, tl, heq, hres, hmin⟩ :=
    buffer_bounded_and_fifo.2.1 fullBuffer100 { seq := 1000, line := "z" }
      fullBuffer100_sorted (by simp [fullBuffer100, maxLogs]) (by decide)
  rw [hres, heq]
  simp

/-- C5 counterexample: applying the same well-formed empty poll snapshot
twice to the empty buffer triggers a render on the second application as
well (`fetchLogs` returns render count 1 both times, to flip the
"no data yet" view state on every poll), refuting that the same snapshot
delivered twice triggers no second render. The buffer itself is
unchanged. -/
theorem poll_empty_double_render :
    fetchLogs [] (.ok (.arr [])) = ([], 1)
    ∧ fetchLogs (fetchLogs [] (.ok (.arr []))).1 (.ok (.arr [])) = ([], 1) := by
  decide

/-- C5 (amended): reconciliation is idempotent in state — re-applying
the same poll snapshot never changes the buffer again, and triggers no
second render except in the one case where the sanitized window is empty
and the buffer is empty after the first application, which re-renders on
every poll; delivering the same push entry twice is a complete no-op the
second time (no state change, no render). -/
theorem reconcile_state_idempotent :
    (∀ (l : List LogEntry) (r : Except Unit JsVal),
        (fetchLogs (fetchLogs l r).1 r).1 = (fetchLogs l r).1
        ∧ ((fetchLogs (fetchLogs l r).1 r).2 = 0
            ∨ ((fetchLogs (fetchLogs l r).1 r).2 = 1
                ∧ (fetchLogs l r).1 = [] ∧ respWindow r = [])))
    ∧ (∀ (l : List LogEntry) (v : JsVal),
        addLog (addLog l v).1 v = ((addLog l v).1, false)) := by
  constructor
  · intro l r
    cases r with
    | error u => exact ⟨rfl, Or.inl rfl⟩
    | ok raw =>
      by_cases hA : (normalizeEntries raw).length = 0 ∧ raw.truthy = true ∧
          raw.isArray = true ∧ 0 < raw.arrayLength
      · have h1 : fetchLogs l (.ok raw) = (l, 0) := by
          rw [fetchLogs_ok_eq, if_pos hA]
        exact ⟨by simp [h1], Or.inl (by simp [h1])⟩
      · by_cases hB : (normalizeEntries raw).length = 0 ∧ l.length = 0
        · have hl : l = [] := List.length_eq_zero.mp hB.2
          subst hl
          have h1 : fetchLogs [] (.ok raw) = ([], 1) := by
            rw [fetchLogs_ok_eq, if_neg hA, if_pos hB]
          refine ⟨by simp [h1], Or.inr ⟨by simp [h1], by simp [h1], ?_⟩⟩
          show normalizeEntries raw = []
          exact List.length_eq_zero.mp hB.1
        · by_cases hC : logsEqual l ((normalizeEntries raw).take maxLogs) = true
          · have h1 : fetchLogs l (.ok raw) = (l, 0) := by
              rw [fetchLogs_ok_eq, if_neg hA, if_neg hB, if_pos hC]
            exact ⟨by simp [h1], Or.inl (by simp [h1])⟩
          · have h1 : fetchLogs l (.ok raw) =
                ((normalizeEntries raw).take maxLogs, 1) := by
              rw [fetchLogs_ok_eq, if_neg hA, if_neg hB, if_neg hC]
            by_cases hwnil : normalizeEntries raw = []
            · have hsl : (normalizeEntries raw).take maxLogs = [] := by
                rw [hwnil]; rfl
              have h2 : fetchLogs [] (.ok raw) = ([], 1) := by
                rw [fetchLogs_ok_eq, if_neg hA, if_pos (by simp [hwnil])]
              refine ⟨?_, Or.inr ⟨?_, ?_, hwnil⟩⟩
              · simp [h1, hsl, h2]
              · simp [h1, hsl, h2]
              · simp [h1, hsl]
            · have hslne : (normalizeEntries raw).take maxLogs ≠ [] := by
                rw [Ne, List.take_eq_nil_iff]
                simp [hwnil, maxLogs]
              have h2 : fetchLogs ((normalizeEntries raw).take maxLogs)
                  (.ok raw) = ((normalizeEntries raw).take maxLogs, 0) :=
                fetchLogs_noop hwnil (logsEqual_self _)
              exact ⟨by simp [h1, h2], Or.inl (by simp [h1, h2])⟩
  · intro l v
    cases hv : entryOfVal v with
    | none => simp [addLog_invalid hv]
    | some e =>
      cases hr : rejectsEntry l e with
      | true => simp [addLog_rejected hv hr]
      | false =>
        have hres := addLog_accepted hv hr
        have hlast :
            (if maxLogs < (l ++ [e]).length then (l ++ [e]).tail
              else l ++ [e]).getLast? = some e := by
          rcases Nat.lt_or_ge maxLogs (l ++ [e]).length with hlen | hlen
          · rw [if_pos hlen]
            cases l with
            | nil => simp [maxLogs] at hlen
            | cons hd tl => simp
          · rw [if_neg (Nat.not_lt.mpr hlen)]
            simp
        have hrej2 : rejectsEntry
            (if maxLogs < (l ++ [e]).length then (l ++ [e]).tail
              else l ++ [e]) e = true := by
          unfold rejectsEntry
          rw [hlast]
          simp
        rw [hres]
        exact addLog_rejected hv hrej2

/-- A poll payload of 101 well-formed entries with `seq = 1..101`. -/
def window101 : JsVal :=
  .arr ((List.range 101).map
    (fun i => .obj (.num ((i + 1 : ℕ) : ℚ)) (.str "w")))

/-- The first 100 entries of that window (`seq = 1..100`). -/
def window101First100 : List LogEntry :=
  (List.range 100).map (fun i => { seq := ((i + 1 : ℕ) : ℚ), line := "w" })

/-- The 100 highest-seq entries of that window (`seq = 2..101`). -/
def window101Last100 : List LogEntry :=
  (List.range 100).map (fun i => { seq := ((i + 2 : ℕ) : ℚ), line := "w" })

set_option maxRecDepth 40000 in
/-- C6 counterexample: a sanitized ordered window of 101 entries with
`seq = 1..101` applied to the empty buffer leaves the *first* 100
entries (`seq = 1..100`, the lowest-seq prefix, via
`entries.slice(0, maxLogs)`), not the 100 highest-seq entries
(`seq = 2..101`) that the claim requires. -/
theorem poll_clip_counterexample :
    (fetchLogs [] (.ok window101)).1 = window101First100
    ∧ (fetchLogs [] (.ok window101)).1 ≠ window101Last100 := by
  decide

/-- C6 (amended): a sanitized nonempty poll window is compared, and on a
structural difference applied, after clipping to the *first* 100 entries
of the window (`entries.slice(0, maxLogs)` keeps the lowest-seq prefix
when the window is longer than 100, not the most-recent entries): if the
clipped window is pairwise equal (`seq` and `line`, in order) to the
current contents, the call is a no-op with no render; otherwise the
buffer is replaced wholesale by the clipped window with one render. -/
theorem poll_replace_clips_first (l : List LogEntry) (raw : JsVal)
    (hne : normalizeEntries raw ≠ []) :
    (logsEqual l ((normalizeEntries raw).take maxLogs) = true →
        fetchLogs l (.ok raw) = (l, 0))
    ∧ (logsEqual l ((normalizeEntries raw).take maxLogs) = false →
        fetchLogs l (.ok raw) = ((normalizeEntries raw).take maxLogs, 1)) :=
  ⟨fun heq => fetchLogs_noop hne heq, fun hneq => fetchLogs_replace hne hneq⟩

theorem poll_replace_clips_first_witness :
    fetchLogs [] (.ok (.arr [.obj (.num 7) (.str "a")]))
      = ([{ seq := 7, line := "a" }], 1) := by
  have h := poll_replace_clips_first [] (.arr [.obj (.num 7) (.str "a")])
    (by decide)
  exact h.2 (by decide)

/-- C1 counterexample: push delivers an entry with `seq = 5`, so the
buffer's maximum accepted `seq` is 5; a subsequent sanitized poll
snapshot whose maximum `seq` is 1 (strictly less) still replaces the
buffer's contents wholesale, refuting that such a snapshot never
overwrites what push has delivered. -/
theorem poll_rewind_counterexample :
    (addLog [] (.obj (.num 5) (.str "x"))).1 = [{ seq := 5, line := "x" }]
    ∧ fetchLogs [{ seq := 5, line := "x" }]
        (.ok (.arr [.obj (.num 1) (.str "a")]))
      = ([{ seq := 1, line := "a" }], 1) := by
  decide

/-- C1 (amended): `fetchLogs` performs no maximum-seq comparison at all:
a sanitized nonempty poll window (of at most 100 entries) all of whose
entries carry a `seq` strictly below the buffer's current maximum always
*replaces* the buffer's contents wholesale — a poll response can rewind
the buffer below what push has already delivered. The buffer survives
only when the window is structurally equal to it or is discarded as
malformed. -/
theorem poll_lower_max_replaces (l : List LogEntry) (raw : JsVal)
    (z : LogEntry) (hz : l.getLast? = some z)
    (hlen : (normalizeEntries raw).length ≤ maxLogs)
    (hne : normalizeEntries raw ≠ [])
    (hmax : ∀ a ∈ normalizeEntries raw, a.seq < z.seq) :
    fetchLogs l (.ok raw) = (normalizeEntries raw, 1) := by
  have htake : (normalizeEntries raw).take maxLogs = normalizeEntries raw :=
    List.take_of_length_le hlen
  have hneq : logsEqual l ((normalizeEntries raw).take maxLogs) = false := by
    rw [htake]
    cases hb : logsEqual l (normalizeEntries raw) with
    | false => rfl
    | true =>
      exfalso
      have hlw : l = normalizeEntries raw := (logsEqual_iff_eq _ _).mp hb
      have hzmem : z ∈ normalizeEntries raw := hlw ▸ mem_of_getLast?_eq hz
      exact lt_irrefl z.seq (hmax z hzmem)
  rw [fetchLogs_replace hne hneq, htake]

theorem poll_lower_max_replaces_witness :
    fetchLogs [{ seq := 5, line := "x" }]
        (.ok (.arr [.obj (.num 2) (.str "b")]))
      = ([{ seq := 2, line := "b" }], 1) := by
  refine poll_lower_max_replaces [{ seq := 5, line := "x" }]
    (.arr [.obj (.num 2) (.str "b")]) { seq := 5, line := "x" }
    rfl (by decide) (by decide) ?_
  intro a ha
  simp [normalizeEntries, entryOfVal] at ha
  rw [ha]
  norm_num

/-- C3 counterexample: a non-array poll response (`null`) delivered while
the buffer is nonempty does not leave the buffer unchanged — it clears
it (and renders), refuting that non-array responses are treated as
"no update". -/
theorem nonarray_clears_counterexample :
    fetchLogs [{ seq := 5, line := "x" }] (.ok .null) = ([], 1)
    ∧ ([] : List LogEntry) ≠ [{ seq := 5, line := "x" }] := by
  decide

/-- C3 (amended): a *non-array* poll response is treated like an empty
authoritative window, not as "no update": it always leaves the buffer
empty (clearing it when it was nonempty) and renders. An *array* whose
elements are all malformed (nonempty raw array, empty sanitized window)
is discarded in full: the buffer is unchanged and nothing renders. In no
case does an invalid element reach the buffer: every entry of the buffer
after a poll either was already present or is a shape-valid element of
the sanitized window. -/
theorem malformed_poll_handling (l : List LogEntry) (raw : JsVal) :
    (raw.isArray = false → fetchLogs l (.ok raw) = ([], 1))
    ∧ (∀ xs, raw = .arr xs → xs ≠ [] → normalizeEntries raw = [] →
        fetchLogs l (.ok raw) = (l, 0))
    ∧ (∀ e ∈ (fetchLogs l (.ok raw)).1, e ∈ l ∨ e ∈ normalizeEntries raw) := by
  refine ⟨?_, ?_, ?_⟩
  · intro hna
    have hw : normalizeEntries raw = [] := normalizeEntries_of_not_array hna
    have hA : ¬((normalizeEntries raw).length = 0 ∧ raw.truthy = true ∧
        raw.isArray = true ∧ 0 < raw.arrayLength) := by
      rintro ⟨-, -, hArr, -⟩
      rw [hna] at hArr
      exact Bool.false_ne_true hArr
    cases hl : l with
    | nil =>
      rw [fetchLogs_ok_eq, if_neg hA, if_pos (by simp [hw])]
    | cons hd tl =>
      have hne : logsEqual (hd :: tl) ((normalizeEntries raw).take maxLogs)
          = false := by
        rw [hw]
        rfl
      rw [fetchLogs_ok_eq, if_neg hA, if_neg (by simp [hw]),
        if_neg (by simp [hne]), hw]
      rfl
  · intro xs hraw hxs hw
    have hA : (normalizeEntries raw).length = 0 ∧ raw.truthy = true ∧
        raw.isArray = true ∧ 0 < raw.arrayLength := by
      subst hraw
      refine ⟨by simp [hw], rfl, rfl, ?_⟩
      show 0 < xs.length
      exact List.length_pos.mpr hxs
    rw [fetchLogs_ok_eq, if_pos hA]
  · intro e he
    rw [fetchLogs_ok_eq] at he
    split_ifs at he with h1 h2 h3
    · exact Or.inl he
    · exact Or.inl he
    · exact Or.inl he
    · exact Or.inr (List.take_subset maxLogs (normalizeEntries raw) he)

theorem malformed_poll_handling_witness :
    fetchLogs [{ seq := 5, line := "x" }] (.ok (.bool true)) = ([], 1)
    ∧ fetchLogs [{ seq := 5, line := "x" }] (.ok (.arr [.null]))
        = ([{ seq := 5, line := "x" }], 0) := by
  constructor
  · exact (malformed_poll_handling [{ seq := 5, line := "x" }] (.bool true)).1
      rfl
  · exact (malformed_poll_handling [{ seq := 5, line := "x" }]
      (.arr [.null])).2.1 [.null] rfl (by simp) rfl

/-! ### Lifecycle theorems -/

theorem startPing_ok_eq (s : AppState) (a : String) (base : String)
    (r : Except Unit JsVal) (h : ¬ jsTrim a = "") :
    startPing s a (.ok base) r =
      { s with errorText := "", logPathText := base,
               logs := (fetchLogs [] r).1,
               renders := s.renders + 1 + (fetchLogs [] r).2,
               autoScroll := true, running := true,
               pollTimer := some s.nextTimerId,
               timers := (s.nextTimerId, pollPeriodMs) ::
                 (match s.pollTimer with
                  | some t => s.timers.filter (fun p => p.1 ≠ t)
                  | none => s.timers),
               nextTimerId := s.nextTimerId + 1 } := by
  unfold startPing
  rw [if_neg h]
  cases hpt : s.pollTimer with
  | none => simp [hpt]
  | some t0 => simp [hpt]

/-- C7: `startPing` with a blank (empty or all-whitespace) address only
sets the inline validation message — regardless of what the backend
would have answered, no call is made and nothing else of the state
changes. With a non-blank address and a successful backend start call,
the final state has: the buffer equal to one immediate poll applied to
the cleared (empty) buffer, auto-follow re-enabled, the `running` flag
set, the poll timer handle pointing at a freshly armed recurring
interval with the fixed 1-second period, and no interval of any previous
run left active (the timer previously held in `pollTimer` is cancelled
before the new one is armed). -/
theorem startPing_lifecycle :
    (∀ (s : AppState) (a : String) (b : Except String String)
        (r : Except Unit JsVal), jsTrim a = "" →
        startPing s a b r = { s with errorText := emptyAddressMsg })
    ∧ (∀ (s : AppState) (a : String) (base : String) (r : Except Unit JsVal),
        jsTrim a ≠ "" →
        (startPing s a (.ok base) r).logs = (fetchLogs [] r).1
        ∧ (startPing s a (.ok base) r).autoScroll = true
        ∧ (startPing s a (.ok base) r).running = true
        ∧ (startPing s a (.ok base) r).pollTimer = some s.nextTimerId
        ∧ (s.nextTimerId, pollPeriodMs) ∈ (startPing s a (.ok base) r).timers
        ∧ ∀ t p, s.pollTimer = some t → t ≠ s.nextTimerId →
            (t, p) ∉ (startPing s a (.ok base) r).timers) := by
  constructor
  · intro s a b r h
    unfold startPing
    rw [if_pos h]
  · intro s a base r h
    rw [startPing_ok_eq s a base r h]
    refine ⟨rfl, rfl, rfl, rfl, List.mem_cons_self _ _, ?_⟩
    intro t p hpt hne hmem
    rw [hpt] at hmem
    rcases List.mem_cons.mp hmem with hhd | htl
    · exact hne (congrArg Prod.fst hhd)
    · rcases List.mem_filter.mp htl with ⟨-, hdec⟩
      simp at hdec

/-- A state from a previous run: stale timer 3 still armed. -/
def staleRunState : AppState :=
  { logs := [{ seq := 9, line := "old" }], running := false,
    autoScroll := false, errorText := "", logPathText := "",
    pollTimer := some 3, timers := [(3, 1000)], nextTimerId := 4,
    renders := 0 }

theorem startPing_lifecycle_witness :
    startPing staleRunState "   " (.ok "/base") (.error ())
      = { staleRunState with errorText := emptyAddressMsg }
    ∧ (startPing staleRunState "host" (.ok "/base") (.error ())).running
        = true
    ∧ (3, pollPeriodMs) ∉
        (startPing staleRunState "host" (.ok "/base") (.error ())).timers := by
  refine ⟨startPing_lifecycle.1 staleRunState "   " _ _ (by decide), ?_, ?_⟩
  · exact (startPing_lifecycle.2 staleRunState "host" "/base" _
      (by decide)).2.2.1
  · exact (startPing_lifecycle.2 staleRunState "host" "/base" _
      (by decide)).2.2.2.2.2 3 pollPeriodMs rfl (by decide)

/-- C8: backend-call failures are atomic for the lifecycle state. If the
backend start call rejects (with a non-blank address, so the call is
reached), the whole state is unchanged except the inline error message:
in particular `running` keeps its value, the buffer is not cleared and
no timer is armed. If the backend stop call rejects, likewise only the
inline error message changes: `running` stays as it was (not
optimistically cleared) and the recurring poll timer stays armed. -/
theorem backend_failure_atomic :
    (∀ (s : AppState) (a : String) (err : String) (r : Except Unit JsVal),
        jsTrim a ≠ "" →
        startPing s a (.error err) r = { s with errorText := err })
    ∧ (∀ (s : AppState) (err : String),
        stopPing s (.error err) = { s with errorText := err }) := by
  constructor
  · intro s a err r h
    unfold startPing
    rw [if_neg h]
  · intro s err
    rfl

theorem backend_failure_atomic_witness :
    startPing { logs := [], running := false, autoScroll := true,
                errorText := "", logPathText := "", pollTimer := none,
                timers := [], nextTimerId := 1, renders := 0 }
        "host" (.error "boom") (.error ())
      = { logs := [], running := false, autoScroll := true,
          errorText := "boom", logPathText := "", pollTimer := none,
          timers := [], nextTimerId := 1, renders := 0 }
    ∧ stopPing { logs := [{ seq := 1, line := "a" }], running := true,
                 autoScroll := true, errorText := "", logPathText := "",
                 pollTimer := some 7, timers := [(7, 1000)],
                 nextTimerId := 8, renders := 3 } (.error "halt failed")
      = { logs := [{ seq := 1, line := "a" }], running := true,
          autoScroll := true, errorText := "halt failed",
          logPathText := "", pollTimer := some 7, timers := [(7, 1000)],
          nextTimerId := 8, renders := 3 } :=
  ⟨backend_failure_atomic.1 _ "host" "boom" _ (by decide),
    backend_failure_atomic.2 _ "halt failed"⟩

/-- C9 counterexample: in the poll-loop transition system derived from
`setInterval(fetchLogs, 1000)` — where a timer tick fires and issues a
new poll request whenever the interval is armed, independently of any
still-unsettled previous request — the state with two polls
simultaneously in flight is reachable from the freshly armed state by
two consecutive ticks with no settle between them, refuting that at most
one poll request is ever in flight. -/
theorem poll_pipelining_counterexample :
    Relation.ReflTransGen PollStep { armed := true, inFlight := 0 }
      { armed := true, inFlight := 2 } := by
  have h1 : PollStep { armed := true, inFlight := 0 }
      { armed := true, inFlight := 1 } :=
    PollStep.tick { armed := true, inFlight := 0 } rfl
  have h2 : PollStep { armed := true, inFlight := 1 }
      { armed := true, inFlight := 2 } :=
    PollStep.tick { armed := true, inFlight := 1 } rfl
  exact (Relation.ReflTransGen.single h1).tail h2

/-- C9 (amended): polls *can* be pipelined. The recurring timer armed by
`startPing` is a plain `setInterval`: while it is armed, every tick
issues a new poll request regardless of whether the previous poll's
promise has settled, so a poll response slower than the 1-second period
overlaps the next scheduled poll instead of delaying it; in particular a
state with two polls in flight is reachable by two ticks with no settle
between them. -/
theorem poll_tick_regardless_of_inflight :
    (∀ s : PollLoop, s.armed = true →
        PollStep s { armed := s.armed, inFlight := s.inFlight + 1 })
    ∧ Relation.ReflTransGen PollStep { armed := true, inFlight := 0 }
        { armed := true, inFlight := 2 } := by
  refine ⟨fun s h => PollStep.tick s h, ?_⟩
  have h1 : PollStep { armed := true, inFlight := 0 }
      { armed := true, inFlight := 1 } :=
    PollStep.tick { armed := true, inFlight := 0 } rfl
  have h2 : PollStep { armed := true, inFlight := 1 }
      { armed := true, inFlight := 2 } :=
    PollStep.tick { armed := true, inFlight := 1 } rfl
  exact (Relation.ReflTransGen.single h1).tail h2

theorem poll_tick_regardless_of_inflight_witness :
    PollStep { armed := true, inFlight := 5 }
      { armed := true, inFlight := 6 } :=
  poll_tick_regardless_of_inflight.1 { armed := true, inFlight := 5 } rfl

/-! ### Push-channel validation -/

def JsVal.isNum : JsVal → Bool
  | .num _ => true
  | _ => false

def JsVal.isStr : JsVal → Bool
  | .str _ => true
  | _ => false

/-- The shape check the source actually performs on a push payload:
the payload is truthy, `payload.seq` is a JS number (`typeof === "number"`,
integer or not) and `payload.line` is a string. -/
def validPushShape (payload : JsVal) : Bool :=
  payload.truthy && payload.getSeq.isNum && payload.getLine.isStr

theorem entryOfVal_obj_none {a b : JsVal}
    (h : a.isNum = false ∨ b.isStr = false) :
    entryOfVal (.obj a b) = none := by
  cases a <;> cases b <;> simp_all [JsVal.isNum, JsVal.isStr, entryOfVal]

/-- C10 counterexample: a push payload whose `seq` is the non-integer
number `3/2` passes the source's `typeof === "number"` check and is
accepted into the buffer (with a render), refuting that only payloads
with an *integer* `seq` are accepted. -/
theorem noninteger_seq_accepted :
    pingLogListener [] (.obj (.num ((3 : ℚ)/2)) (.str "a"))
      = ([{ seq := (3 : ℚ)/2, line := "a" }], true)
    ∧ ((3 : ℚ)/2).den ≠ 1 := by
  constructor
  · rfl
  · norm_num

/-- C10 (amended): a push payload is accepted into the buffer only if it
carries a JS *number* `seq` (integer or not — the code checks
`typeof === "number"`, not integrality) and a string `line`; any payload
failing that shape check (falsy payload, missing field, non-number
`seq`, non-string `line`) is dropped silently with no state change and
no render; a payload of the valid shape is handed through to `addLog`
unchanged. -/
theorem push_shape_validation :
    (∀ (l : List LogEntry) (payload : JsVal),
        validPushShape payload = false →
        pingLogListener l payload = (l, false))
    ∧ (∀ (l : List LogEntry) (q : ℚ) (s : String),
        pingLogListener l (.obj (.num q) (.str s))
          = addLog l (.obj (.num q) (.str s))) := by
  constructor
  · intro l payload h
    unfold pingLogListener
    cases ht : payload.truthy with
    | false => simp [ht]
    | true =>
      show addLog l (.obj payload.getSeq payload.getLine) = (l, false)
      have hshape : payload.getSeq.isNum = false ∨
          payload.getLine.isStr = false := by
        rw [validPushShape, ht] at h
        simp at h
        cases hn : payload.getSeq.isNum with
        | false => exact Or.inl rfl
        | true => exact Or.inr (h hn)
      exact addLog_invalid (entryOfVal_obj_none hshape)
  · intro l q s
    rfl

theorem push_shape_validation_witness :
    pingLogListener [{ seq := 1, line := "a" }] (.obj (.str "5") (.str "b"))
      = ([{ seq := 1, line := "a" }], false) :=
  push_shape_validation.1 [{ seq := 1, line := "a" }]
    (.obj (.str "5") (.str "b")) rfl

end PingTool
